import Mathlib

/-!
Shallow embedding of the Portfolio Time-Series Reconstruction & Risk
Analytics Engine (`src/utils/analytics.py`) and verification of the
specification claims about it.

Dates are modelled as natural-number day indices; monetary quantities and
prices as exact rationals.  Pandas/NumPy float semantics are modelled by
the `FVal` type (finite rational, plus-infinity, minus-infinity, NaN)
wherever a claim depends on division-by-zero / NaN behaviour.
-/

/-- IEEE-754-style extended value used by the pandas/NumPy computations:
a finite value (modelled as an exact rational), `+inf`, `-inf`, or `NaN`. -/
inductive FVal where
  | num (q : ℚ)
  | inf
  | neginf
  | nan
deriving DecidableEq

/-- Negation on extended values. -/
def fneg : FVal → FVal
  | .num q => .num (-q)
  | .inf => .neginf
  | .neginf => .inf
  | .nan => .nan

/-- Addition on extended values (IEEE rules: `inf + -inf = NaN`, NaN propagates). -/
def fadd : FVal → FVal → FVal
  | .num a, .num b => .num (a + b)
  | .nan, _ => .nan
  | _, .nan => .nan
  | .inf, .neginf => .nan
  | .neginf, .inf => .nan
  | .inf, _ => .inf
  | _, .inf => .inf
  | .neginf, _ => .neginf
  | _, .neginf => .neginf

/-- Subtraction on extended values. -/
def fsub (a b : FVal) : FVal := fadd a (fneg b)

/-- Multiplication on extended values (IEEE rules: `0 * inf = NaN`, NaN propagates). -/
def fmul : FVal → FVal → FVal
  | .num a, .num b => .num (a * b)
  | .nan, _ => .nan
  | _, .nan => .nan
  | .inf, .num b => if b = 0 then .nan else if 0 < b then .inf else .neginf
  | .num a, .inf => if a = 0 then .nan else if 0 < a then .inf else .neginf
  | .neginf, .num b => if b = 0 then .nan else if 0 < b then .neginf else .inf
  | .num a, .neginf => if a = 0 then .nan else if 0 < a then .neginf else .inf
  | .inf, .inf => .inf
  | .inf, .neginf => .neginf
  | .neginf, .inf => .neginf
  | .neginf, .neginf => .inf

/-- Division on extended values (IEEE rules: `x/0 = ±inf` for `x ≠ 0`,
`0/0 = NaN`, `x/±inf = 0`, `±inf/±inf = NaN`, NaN propagates).  This is the
NumPy float behaviour of the source's `/` on Series. -/
def fdiv : FVal → FVal → FVal
  | .nan, _ => .nan
  | _, .nan => .nan
  | .num a, .num b =>
      if b = 0 then (if a = 0 then .nan else if 0 < a then .inf else .neginf)
      else .num (a / b)
  | .num _, .inf => .num 0
  | .num _, .neginf => .num 0
  | .inf, .num b => if 0 ≤ b then .inf else .neginf
  | .neginf, .num b => if 0 ≤ b then .neginf else .inf
  | .inf, .inf => .nan
  | .inf, .neginf => .nan
  | .neginf, .inf => .nan
  | .neginf, .neginf => .nan

/-- `Series.fillna(0)` applied to one cell: NaN becomes 0, everything else
(including ±inf) is kept. -/
def fillna0 : FVal → FVal
  | .nan => .num 0
  | x => x

/-- Order test used for `Series.min()`: never true on NaN (pandas skips NaN),
`-inf` below every finite value, `+inf` above. -/
def fleB : FVal → FVal → Bool
  | .nan, _ => false
  | _, .nan => false
  | .neginf, _ => true
  | _, .neginf => false
  | _, .inf => true
  | .inf, _ => false
  | .num a, .num b => decide (a ≤ b)

/-- Minimum of two non-NaN extended values. -/
def fmin2 (a b : FVal) : FVal := if fleB b a then b else a

/-- `Series.min()` with pandas defaults: NaN entries are skipped; the result
is NaN when the series is empty or all-NaN. -/
def fvalMin (l : List FVal) : FVal :=
  match l.filter (fun x => !(x == FVal.nan)) with
  | [] => .nan
  | x :: xs => xs.foldl fmin2 x

/-- Sum of a list of extended values (`fadd` folded from 0). -/
def fsum (l : List FVal) : FVal := l.foldl fadd (.num 0)

/-- A transaction row of the ledger:
`{date, symbol, transaction_type ∈ {"buy","sell"}, quantity, price, charges}`. -/
structure Tx where
  date : Nat
  symbol : String
  transaction_type : String
  quantity : ℚ
  price : ℚ
  charges : ℚ
deriving DecidableEq

/-- `(qty * price) + charges`, the `amount` computed for every transaction
in `process_portfolio_data` (line 112 of the source; note that charges are
ADDED for sells as well). -/
def Tx.amount (t : Tx) : ℚ := t.quantity * t.price + t.charges

/-- A holding row: `{symbol, asset_type, sector, quantity, avg_price}`;
`sector` is optional (the source uses `h.get('sector', 'Other')`). -/
structure Holding where
  symbol : String
  asset_type : String
  sector : Option String
  quantity : ℚ
  avg_price : ℚ
deriving DecidableEq

/-- The JSON portfolio data: holdings plus the ordered transaction log. -/
structure PortfolioData where
  holdings : List Holding
  transactions : List Tx
deriving DecidableEq

/-- The historical-price DataFrame: a day-index (ascending business days),
a set of symbol columns, and the closing price for each (day, symbol). -/
structure PricePanel where
  dates : List Nat
  columns : List String
  price : Nat → String → ℚ

/-- The designated benchmark column name (`nifty_col = "NIFTY_50"`). -/
def nifty_col : String := "NIFTY_50"

/-- `series.cummax()` with a running accumulator. -/
def cummaxAux (m : ℚ) : List ℚ → List ℚ
  | [] => []
  | x :: xs => max m x :: cummaxAux (max m x) xs

/-- `series.cummax()`: running maximum of a series. -/
def cummax : List ℚ → List ℚ
  | [] => []
  | x :: xs => x :: cummaxAux x xs

/-- `calculate_max_drawdown` (source lines 32-40): the drawdown series
`(series - rolling_max) / rolling_max` and its minimum, both scaled by 100.
The value series itself is exact-rational valued; drawdown cells are `FVal`
because the division can hit a zero rolling maximum. -/
def calculate_max_drawdown (series : List ℚ) : List FVal × FVal :=
  if series.isEmpty then ([], .num 0)
  else
    let rollingMax := cummax series
    let drawdown := List.zipWith (fun v m => fdiv (.num (v - m)) (.num m)) series rollingMax
    let maxDd := fvalMin drawdown
    (drawdown.map (fun x => fmul x (.num 100)), fmul maxDd (.num 100))

/-- The inner-join-and-dropna of `calculate_risk_metrics` (source line 48):
align the two date-indexed series on their common dates, then drop rows in
which either cell is NaN. -/
def alignJoin (dr br : List (Nat × FVal)) : List (FVal × FVal) :=
  (dr.filterMap (fun p => (br.lookup p.1).map (fun y => (p.2, y)))).filter
    (fun q => !(q.1 == FVal.nan) && !(q.2 == FVal.nan))

/-- One entry of `np.cov(xs, ys)` with the default `ddof = 1`:
`Σ (x - x̄)(y - ȳ) / (n - 1)`.  For a single observation this is `0/0 = NaN`,
exactly as NumPy produces (after its degrees-of-freedom warning). -/
def covDDof1 (xs ys : List FVal) : FVal :=
  let n : ℚ := xs.length
  let xbar := fdiv (fsum xs) (.num n)
  let ybar := fdiv (fsum ys) (.num n)
  fdiv (fsum (List.zipWith (fun x y => fmul (fsub x xbar) (fsub y ybar)) xs ys))
    (.num (n - 1))

/-- The beta computation of `calculate_risk_metrics` (source lines 42-54):
0 when the portfolio return series has fewer than 2 points, 0 when the
aligned non-NaN intersection is empty, otherwise
`cov(portfolio, benchmark) / var(benchmark)` over the intersection.
The Sharpe component of the source function involves real square roots
(`sqrt 252`, standard deviation) that have no exact rational value; no claim
concerns it and it is not modelled. -/
def calculate_risk_metrics (daily_returns benchmark_returns : List (Nat × FVal)) : FVal :=
  if daily_returns.length < 2 then .num 0
  else
    let df := alignJoin daily_returns benchmark_returns
    if df = [] then .num 0
    else
      fdiv (covDDof1 (df.map Prod.fst) (df.map Prod.snd))
        (covDDof1 (df.map Prod.snd) (df.map Prod.snd))

/-- Minimum of a list of day indices (`min(dates)`); 0 on the empty list
(unreachable: `calculate_xirr` always appends the current date). -/
def listMinD (l : List Nat) : Nat :=
  match l with
  | [] => 0
  | x :: xs => xs.foldl min x

/-- Power with the exponent floored to an integer.  The source computes the
real power `(1 + rate) ** (days / 365.0)`; a fractional exponent has an
irrational value, which no rational (or float) can represent exactly.  The
model is exact whenever the day count is a whole multiple of 365 — the only
case any theorem below evaluates — and the claims settled through it
(termination, exception-to-sentinel, clock dependence) do not depend on the
value taken at fractional exponents. -/
def qpowFloor (b : ℚ) (e : ℚ) : ℚ := b ^ ⌊e⌋

/-- `xnpv` (source lines 8-13): net present value at irregular intervals,
`Σ val / (1+rate)^((date - min_date)/365)`.  The source returns
`float('inf')` when `rate ≤ -1`; the non-finite value is modelled as `none`. -/
def xnpv (rate : ℚ) (values : List ℚ) (dates : List Nat) : Option ℚ :=
  if rate ≤ -1 then none
  else
    let minDate := listMinD dates
    some ((List.zipWith
      (fun v d => v / qpowFloor (1 + rate) (((d : ℚ) - (minDate : ℚ)) / 365))
      values dates).sum)

/-- Absolute convergence tolerance of the root-finder (`~1.48e-8` in scipy;
any fixed small tolerance realises the spec). -/
def newtonTol : ℚ := 1 / 100000000

/-- Modelled from the spec: the iteration loop of `scipy.optimize.newton`
called without a derivative (a secant iteration), which is missing from the
repository (scipy is an external library).  Per spec §4.4/§5/§9 it is a
bounded-iteration Newton-type root-finder with an explicit convergence
tolerance and a fixed iteration cap, failing (rather than looping) when the
cap is exceeded, when the secant slope vanishes, or when the function value
is non-finite. -/
def secantLoop (f : ℚ → Option ℚ) : Nat → ℚ → ℚ → ℚ → ℚ → Except String ℚ
  | 0, _, _, _, _ => .error "Failed to converge within the iteration cap"
  | fuel + 1, p0, q0, p1, q1 =>
    if q1 = q0 then .error "Derivative was zero"
    else
      let p := p1 - q1 * (p1 - p0) / (q1 - q0)
      if |p - p1| < newtonTol then .ok p
      else
        match f p with
        | none => .error "Non-finite function value"
        | some qp => secantLoop f fuel p1 q1 p qp

/-- Modelled from the spec: `scipy.optimize.newton(func, x0)` — seed a second
point near `x0`, then run the capped secant iteration (cap 50, scipy's
default `maxiter`).  A raised `RuntimeError`/`OverflowError` is modelled as
`Except.error`. -/
def newton (f : ℚ → Option ℚ) (x0 : ℚ) : Except String ℚ :=
  let p1 := x0 * (1 + 1 / 10000) + 1 / 10000
  match f x0, f p1 with
  | some q0, some q1 => secantLoop f 50 x0 q0 p1 q1
  | _, _ => .error "Non-finite function value"

/-- `calculate_xirr` (source lines 15-30): append the current portfolio value
as a synthetic final cash flow dated `today` (`datetime.now()` in the source,
surfaced here as an explicit argument), then root-find the NPV; any
root-finder failure is absorbed into the sentinel `0.0`. -/
def calculate_xirr (transactions : List (Nat × ℚ)) (current_value : ℚ) (today : Nat) : ℚ :=
  if transactions.isEmpty then 0
  else
    let dates := transactions.map Prod.fst ++ [today]
    let amounts := transactions.map Prod.snd ++ [current_value]
    match newton (fun r => xnpv r amounts dates) (1 / 10) with
    | .ok r => r
    | .error _ => 0

/-- The mutable state of the reconstruction walk in `process_portfolio_data`:
the per-symbol unit-position series (`portfolio_units`), the phantom
benchmark unit series (`benchmark_units`), the invested-capital series, the
running `cumulative_invested`, and the cash-flow log.  Day-indexed series are
modelled as functions on day indices (only the panel's days are ever read). -/
structure ReconState where
  units : String → Nat → ℚ
  bmUnits : Nat → ℚ
  invested : Nat → ℚ
  cumInvested : ℚ
  cashFlows : List (Nat × ℚ)

/-- All-zero initial state (`pd.DataFrame(0.0, ...)`, `pd.Series(0.0, ...)`). -/
def initState : ReconState :=
  { units := fun _ _ => 0, bmUnits := fun _ => 0, invested := fun _ => 0,
    cumInvested := 0, cashFlows := [] }

/-- Apply one transaction row on day `date` (source lines 107-136).
A buy adds `quantity` to the symbol's unit series from `date` forward (only
if the symbol is a panel column), buys `amount / benchmark price` phantom
units from `date` forward, adds `amount` to invested capital and records the
cash outflow `-amount`.  A sell subtracts the units from `date` forward,
subtracts `amount` (which still ADDS the charges, line 112) from invested
capital and records the inflow `+amount`; it does not touch the benchmark
units.  Any other `transaction_type` is ignored. -/
def applyTx (panel : PricePanel) (date : Nat) (st : ReconState) (t : Tx) : ReconState :=
  if t.transaction_type = "buy" then
    { units :=
        if t.symbol ∈ panel.columns then
          fun s d => if s = t.symbol ∧ date ≤ d then st.units s d + t.quantity else st.units s d
        else st.units,
      bmUnits := fun d =>
        if date ≤ d then st.bmUnits d + t.amount / panel.price date nifty_col else st.bmUnits d,
      invested := st.invested,
      cumInvested := st.cumInvested + t.amount,
      cashFlows := st.cashFlows ++ [(date, -t.amount)] }
  else if t.transaction_type = "sell" then
    { units :=
        if t.symbol ∈ panel.columns then
          fun s d => if s = t.symbol ∧ date ≤ d then st.units s d - t.quantity else st.units s d
        else st.units,
      bmUnits := st.bmUnits,
      invested := st.invested,
      cumInvested := st.cumInvested - t.amount,
      cashFlows := st.cashFlows ++ [(date, t.amount)] }
  else st

/-- One iteration of the calendar walk (source lines 103-138): apply, in log
order, every transaction dated `date`, then write the running cumulative
invested capital into the invested series at `date`. -/
def processDay (panel : PricePanel) (txs : List Tx) (st : ReconState) (date : Nat) : ReconState :=
  let st1 := (txs.filter (fun t => t.date = date)).foldl (applyTx panel date) st
  { st1 with invested := fun d => if d = date then st1.cumInvested else st1.invested d }

/-- The full reconstruction walk over the restricted calendar. -/
def reconstruct (panel : PricePanel) (txs : List Tx) (dates : List Nat) : ReconState :=
  dates.foldl (processDay panel txs) initState

/-- The scalar metrics block of the analysis result.  `sharpe` (an
annualised ratio involving `sqrt 252` and a standard deviation, both
irrational) is not representable exactly and is not modelled; no claim
concerns it. -/
structure Metrics where
  current_value : ℚ
  total_invested : ℚ
  absolute_profit : ℚ
  absolute_return_pct : ℚ
  xirr : ℚ
  beta : FVal
  max_drawdown : FVal
deriving DecidableEq

/-- The analysis result dictionary returned by `process_portfolio_data`. -/
structure AnalysisResult where
  dates : List Nat
  invested : List ℚ
  portfolio_value : List ℚ
  benchmark_value : List ℚ
  portfolio_profit_pct : List FVal
  benchmark_profit_pct : List FVal
  drawdown : List FVal
  metrics : Metrics
deriving DecidableEq

/-- Observable outcome of one engine invocation: the `None` no-data
sentinel, an uncaught exception (e.g. the `IndexError` that `.iloc[-1]`
raises on an empty restricted calendar), or a normal result. -/
inductive EngineOutput where
  | noData
  | error (msg : String)
  | ok (r : AnalysisResult)
deriving DecidableEq

/-- The symbol filter (source lines 78-79): filtering happens only when the
selection is a non-empty list (`if selected_symbols` — `None` and `[]` are
falsy) that does not contain the sentinel string `'ALL'`. -/
def applyFilter : Option (List String) → List Tx → List Tx
  | none, txs => txs
  | some l, txs =>
      if l ≠ [] ∧ "ALL" ∉ l then txs.filter (fun t => decide (t.symbol ∈ l)) else txs

/-- Columns owned by the portfolio: every panel column except the benchmark
(source line 143). -/
def valid_cols (panel : PricePanel) : List String :=
  panel.columns.filter (fun c => !(c == nifty_col))

/-- One cell of the profit-percentage series
`((value - invested) / invested * 100).fillna(0)` (source lines 155-156). -/
def profitCell (v i : ℚ) : FVal :=
  fillna0 (fmul (fdiv (.num (v - i)) (.num i)) (.num 100))

/-- One cell of `Series.pct_change()`: `cur / prev - 1` in float semantics,
with the subsequent `.fillna(0)` applied. -/
def pctChangeCell (prev cur : ℚ) : FVal :=
  fillna0 (fsub (fdiv (.num cur) (.num prev)) (.num 1))

/-- `series.pct_change().fillna(0)`: the first cell (NaN) becomes 0. -/
def pctChange (l : List ℚ) : List FVal :=
  match l with
  | [] => []
  | _ :: _ => FVal.num 0 :: List.zipWith pctChangeCell l l.tail

/-- Minimum transaction date of the filtered log (`tx_df['date'].min()`). -/
def minTxDate (txs : List Tx) : Nat :=
  match txs with
  | [] => 0
  | t :: ts => ts.foldl (fun m t2 => min m t2.date) t.date

/-- The engine body after symbol filtering (source lines 81-187): clip the
panel to dates ≥ the first filtered transaction date, replay the log, value
the holdings and the phantom benchmark, and assemble the result.  `today` is
the `datetime.now()` read inside `calculate_xirr`, surfaced as an argument. -/
def processCore (panel : PricePanel) (tx : List Tx) (today : Nat) : EngineOutput :=
  if tx.isEmpty then .noData
  else
    let start := minTxDate tx
    let dates := panel.dates.filter (fun d => decide (start ≤ d))
    if dates.isEmpty then .error "IndexError: single positional indexer is out-of-bounds"
    else
      let st := reconstruct panel tx dates
      let investedList := dates.map st.invested
      let valueList := dates.map (fun d =>
        ((valid_cols panel).map (fun c => st.units c d * panel.price d c)).sum)
      let bmList := dates.map (fun d => st.bmUnits d * panel.price d nifty_col)
      let currentPf := valueList.getLast?.getD 0
      let currentInvested := investedList.getLast?.getD 0
      let ddPair := calculate_max_drawdown valueList
      let pfReturns := pctChange valueList
      let bmReturns := pctChange (dates.map (fun d => panel.price d nifty_col))
      .ok {
        dates := dates,
        invested := investedList,
        portfolio_value := valueList,
        benchmark_value := bmList,
        portfolio_profit_pct := List.zipWith profitCell valueList investedList,
        benchmark_profit_pct := List.zipWith profitCell bmList investedList,
        drawdown := ddPair.1,
        metrics := {
          current_value := currentPf,
          total_invested := currentInvested,
          absolute_profit := currentPf - currentInvested,
          absolute_return_pct :=
            if 0 < currentInvested then (currentPf - currentInvested) / currentInvested * 100
            else 0,
          xirr := calculate_xirr st.cashFlows currentPf today,
          beta := calculate_risk_metrics (dates.zip pfReturns) (dates.zip bmReturns),
          max_drawdown := ddPair.2 } }

/-- `process_portfolio_data` (source lines 64-187): filter the transaction
log by the selection, then run the engine body. -/
def process_portfolio_data (pd : PortfolioData) (panel : PricePanel)
    (selected_symbols : Option (List String)) (today : Nat) : EngineOutput :=
  processCore panel (applyFilter selected_symbols pd.transactions) today

/-- The skip condition of `get_asset_allocation` (source line 194):
`selected_symbols and 'ALL' not in selected_symbols and symbol not in
selected_symbols`. -/
def skipHolding (sel : Option (List String)) (sym : String) : Bool :=
  match sel with
  | none => false
  | some l => !l.isEmpty && !l.contains "ALL" && !l.contains sym

/-- One row of the allocation snapshot. -/
structure AllocRow where
  symbol : String
  sector : String
  value : ℚ
  ret : ℚ
deriving DecidableEq

/-- `get_asset_allocation` (source lines 189-210): per kept holding, the
current value at the latest price (falling back to average cost) and the
percentage return versus average cost.  (The source would raise
`ZeroDivisionError` on `avg_price = 0`; rational division is total here and
no claim touches that cell.) -/
def get_asset_allocation (holdings : List Holding) (current_prices : List (String × ℚ))
    (selected_symbols : Option (List String)) : List AllocRow :=
  holdings.filterMap (fun h =>
    if skipHolding selected_symbols h.symbol then none
    else
      let price := (current_prices.lookup h.symbol).getD h.avg_price
      some { symbol := h.symbol, sector := h.sector.getD "Other",
             value := h.quantity * price,
             ret := (price - h.avg_price) / h.avg_price * 100 })

/-- Replace the `xirr` metric (the only field computed from the system
clock) by 0, leaving every other field of the output intact. -/
def eraseXirr (o : EngineOutput) : EngineOutput :=
  match o with
  | .ok r => .ok { r with metrics := { r.metrics with xirr := 0 } }
  | o => o

/-- A selection that the source treats as "no filtering": `None`, the empty
list, or any list containing `'ALL'`. -/
def noFilterSel (sel : Option (List String)) : Prop :=
  sel = none ∨ sel = some [] ∨ ∃ l, sel = some l ∧ "ALL" ∈ l

/-- `true` iff the engine returned a normal analysis result. -/
def EngineOutput.isOkB : EngineOutput → Bool
  | .ok _ => true
  | _ => false

/-- The invested-capital series of a normal result ( `[]` otherwise). -/
def EngineOutput.investedSeries : EngineOutput → List ℚ
  | .ok r => r.invested
  | _ => []

/-- The portfolio-value series of a normal result (`[]` otherwise). -/
def EngineOutput.valueSeries : EngineOutput → List ℚ
  | .ok r => r.portfolio_value
  | _ => []

/-- The portfolio profit-percent series of a normal result (`[]` otherwise). -/
def EngineOutput.profitSeries : EngineOutput → List FVal
  | .ok r => r.portfolio_profit_pct
  | _ => []

/-- Contribution of one transaction applied on `date` to the unit position
of symbol `s` at day `d`: `+quantity` for a buy, `-quantity` for a sell,
only when the symbol is a panel column, the symbol matches, and `date ≤ d`. -/
def unitDelta (panel : PricePanel) (date : Nat) (t : Tx) (s : String) (d : Nat) : ℚ :=
  if t.transaction_type = "buy" then
    (if t.symbol ∈ panel.columns ∧ s = t.symbol ∧ date ≤ d then t.quantity else 0)
  else if t.transaction_type = "sell" then
    (if t.symbol ∈ panel.columns ∧ s = t.symbol ∧ date ≤ d then -t.quantity else 0)
  else 0

/-- Contribution of one transaction applied on `date` to the phantom
benchmark units at day `d`: only a buy contributes, by
`amount / benchmark price of that day`, from `date` forward. -/
def bmDelta (panel : PricePanel) (date : Nat) (t : Tx) (d : Nat) : ℚ :=
  if t.transaction_type = "buy" ∧ date ≤ d then t.amount / panel.price date nifty_col else 0

/-- Cash-flow entries recorded for one transaction applied on `date`. -/
def flowDelta (date : Nat) (t : Tx) : List (Nat × ℚ) :=
  if t.transaction_type = "buy" then [(date, -t.amount)]
  else if t.transaction_type = "sell" then [(date, t.amount)]
  else []

/-- Closed form of the final unit position of symbol `s` at day `d`:
the sum, over the walked calendar, of the deltas of that day's transactions. -/
def unitsClosed (panel : PricePanel) (txs : List Tx) (dates : List Nat)
    (s : String) (d : Nat) : ℚ :=
  (dates.map (fun date =>
    ((txs.filter (fun t => t.date = date)).map (fun t => unitDelta panel date t s d)).sum)).sum

/-- Closed form of the final phantom benchmark units at day `d`. -/
def bmClosed (panel : PricePanel) (txs : List Tx) (dates : List Nat) (d : Nat) : ℚ :=
  (dates.map (fun date =>
    ((txs.filter (fun t => t.date = date)).map (fun t => bmDelta panel date t d)).sum)).sum

/-- Closed form of the recorded cash-flow log. -/
def flowsClosed (txs : List Tx) (dates : List Nat) : List (Nat × ℚ) :=
  dates.flatMap (fun date => (txs.filter (fun t => t.date = date)).flatMap (flowDelta date))

/-- Fixture: a two-day price panel (benchmark flat at 100, symbol `X` at
100 then 110) used to exhibit the clock dependence of the engine. -/
def c8panel : PricePanel :=
  { dates := [0, 1], columns := ["X", nifty_col],
    price := fun d s => if s = "X" then (if d = 0 then 100 else 110) else 100 }

/-- Fixture: one buy of 1 unit of `X` at 100 on day 0. -/
def c8pd : PortfolioData :=
  { holdings := [], transactions := [⟨0, "X", "buy", 1, 100, 0⟩] }

/-- Fixture: a panel whose calendar starts at day 10, used with a
transaction dated day 5 (before the panel's range). -/
def c1panel : PricePanel :=
  { dates := [10, 11], columns := ["X", nifty_col],
    price := fun _ s => if s = "X" then 50 else 100 }

/-- Fixture: a single buy dated day 5, before `c1panel`'s first row. -/
def c1pd : PortfolioData :=
  { holdings := [], transactions := [⟨5, "X", "buy", 1, 40, 0⟩] }

/-- Fixture: panel for the oversell scenario (`X` at 100 then 150). -/
def c4panel : PricePanel :=
  { dates := [0, 1], columns := ["X", nifty_col],
    price := fun d s => if s = "X" then (if d = 0 then 100 else 150) else 100 }

/-- Fixture: buy 1 `X` at 100 on day 0, sell 1 `X` at 150 on day 1 —
after the sell the invested-capital balance is `100 - 150 = -50 < 0`. -/
def c4pd : PortfolioData :=
  { holdings := [],
    transactions := [⟨0, "X", "buy", 1, 100, 0⟩, ⟨1, "X", "sell", 1, 150, 0⟩] }

/-- Fixture: one-day panel for the sell-charges cash-flow check. -/
def c3panel : PricePanel :=
  { dates := [0], columns := ["X", nifty_col], price := fun _ _ => 100 }

/-- Fixture: a sell of 1 unit at price 100 with charges 10. -/
def c3txs : List Tx := [⟨0, "X", "sell", 1, 100, 10⟩]

/-- Fixture: four-day panel (benchmark flat at 100, `X` at `100 + d`). -/
def demoPanel : PricePanel :=
  { dates := [0, 1, 2, 3], columns := ["X", nifty_col],
    price := fun d s => if s = nifty_col then 100 else (100 + (d : ℚ)) }

/-- Fixture: buy 5 `X` on day 0, sell 2 `X` on day 3 — days 1 and 2 lie
strictly between two consecutive transactions on `X`. -/
def c2txs : List Tx := [⟨0, "X", "buy", 5, 100, 0⟩, ⟨3, "X", "sell", 2, 103, 0⟩]

/-- Fixture: two holdings (one without a sector) for the allocation checks. -/
def w10hs : List Holding :=
  [⟨"X", "stock", some "IT", 2, 50⟩, ⟨"Y", "stock", none, 3, 10⟩]

/-- Fixture: a live price exists for `X` only; `Y` falls back to its
average cost. -/
def w10ps : List (String × ℚ) := [("X", 60)]

theorem applyTx_units (panel : PricePanel) (date : Nat) (st : ReconState) (t : Tx)
    (s : String) (d : Nat) :
    (applyTx panel date st t).units s d = st.units s d + unitDelta panel date t s d := by
  unfold applyTx unitDelta
  by_cases hb : t.transaction_type = "buy"
  · simp only [if_pos hb]
    by_cases hc : t.symbol ∈ panel.columns <;>
      by_cases hcond : s = t.symbol ∧ date ≤ d <;> simp [hc, hcond]
  · simp only [if_neg hb]
    by_cases hs : t.transaction_type = "sell"
    · simp only [if_pos hs]
      by_cases hc : t.symbol ∈ panel.columns <;>
        by_cases hcond : s = t.symbol ∧ date ≤ d <;>
        simp [hc, hcond, sub_eq_add_neg]
    · simp [hs]

theorem applyTx_bmUnits (panel : PricePanel) (date : Nat) (st : ReconState) (t : Tx)
    (d : Nat) :
    (applyTx panel date st t).bmUnits d = st.bmUnits d + bmDelta panel date t d := by
  unfold applyTx bmDelta
  by_cases hb : t.transaction_type = "buy"
  · simp only [if_pos hb]
    by_cases hd : date ≤ d <;> simp [hb, hd]
  · simp only [if_neg hb]
    by_cases hs : t.transaction_type = "sell" <;> simp [hb, hs]

theorem applyTx_cashFlows (panel : PricePanel) (date : Nat) (st : ReconState) (t : Tx) :
    (applyTx panel date st t).cashFlows = st.cashFlows ++ flowDelta date t := by
  unfold applyTx flowDelta
  by_cases hb : t.transaction_type = "buy"
  · simp [hb]
  · by_cases hs : t.transaction_type = "sell" <;> simp [hb, hs]

theorem foldl_applyTx_units (panel : PricePanel) (date : Nat) (l : List Tx) :
    ∀ (st : ReconState) (s : String) (d : Nat),
      ((l.foldl (applyTx panel date) st).units s d) =
        st.units s d + (l.map (fun t => unitDelta panel date t s d)).sum := by
  induction l with
  | nil => intro st s d; simp
  | cons t l ih =>
      intro st s d
      simp only [List.foldl_cons, List.map_cons, List.sum_cons, ih, applyTx_units]
      ring

theorem foldl_applyTx_bmUnits (panel : PricePanel) (date : Nat) (l : List Tx) :
    ∀ (st : ReconState) (d : Nat),
      ((l.foldl (applyTx panel date) st).bmUnits d) =
        st.bmUnits d + (l.map (fun t => bmDelta panel date t d)).sum := by
  induction l with
  | nil => intro st d; simp
  | cons t l ih =>
      intro st d
      simp only [List.foldl_cons, List.map_cons, List.sum_cons, ih, applyTx_bmUnits]
      ring

theorem foldl_applyTx_cashFlows (panel : PricePanel) (date : Nat) (l : List Tx) :
    ∀ (st : ReconState),
      ((l.foldl (applyTx panel date) st).cashFlows) =
        st.cashFlows ++ l.flatMap (flowDelta date) := by
  induction l with
  | nil => intro st; simp
  | cons t l ih =>
      intro st
      simp only [List.foldl_cons, List.flatMap_cons, ih, applyTx_cashFlows,
        List.append_assoc]

theorem processDay_units (panel : PricePanel) (txs : List Tx) (st : ReconState)
    (date : Nat) (s : String) (d : Nat) :
    (processDay panel txs st date).units s d =
      st.units s d +
        ((txs.filter (fun t => t.date = date)).map (fun t => unitDelta panel date t s d)).sum := by
  simp [processDay, foldl_applyTx_units]

theorem processDay_bmUnits (panel : PricePanel) (txs : List Tx) (st : ReconState)
    (date : Nat) (d : Nat) :
    (processDay panel txs st date).bmUnits d =
      st.bmUnits d +
        ((txs.filter (fun t => t.date = date)).map (fun t => bmDelta panel date t d)).sum := by
  simp [processDay, foldl_applyTx_bmUnits]

theorem processDay_cashFlows (panel : PricePanel) (txs : List Tx) (st : ReconState)
    (date : Nat) :
    (processDay panel txs st date).cashFlows =
      st.cashFlows ++ (txs.filter (fun t => t.date = date)).flatMap (flowDelta date) := by
  simp [processDay, foldl_applyTx_cashFlows]

theorem foldl_processDay_units (panel : PricePanel) (txs : List Tx) (dates : List Nat) :
    ∀ (st : ReconState) (s : String) (d : Nat),
      ((dates.foldl (processDay panel txs) st).units s d) =
        st.units s d +
          (dates.map (fun date =>
            ((txs.filter (fun t => t.date = date)).map
              (fun t => unitDelta panel date t s d)).sum)).sum := by
  induction dates with
  | nil => intro st s d; simp
  | cons date dates ih =>
      intro st s d
      simp only [List.foldl_cons, List.map_cons, List.sum_cons, ih, processDay_units]
      ring

theorem foldl_processDay_bmUnits (panel : PricePanel) (txs : List Tx) (dates : List Nat) :
    ∀ (st : ReconState) (d : Nat),
      ((dates.foldl (processDay panel txs) st).bmUnits d) =
        st.bmUnits d +
          (dates.map (fun date =>
            ((txs.filter (fun t => t.date = date)).map
              (fun t => bmDelta panel date t d)).sum)).sum := by
  induction dates with
  | nil => intro st d; simp
  | cons date dates ih =>
      intro st d
      simp only [List.foldl_cons, List.map_cons, List.sum_cons, ih, processDay_bmUnits]
      ring

theorem foldl_processDay_cashFlows (panel : PricePanel) (txs : List Tx) (dates : List Nat) :
    ∀ (st : ReconState),
      ((dates.foldl (processDay panel txs) st).cashFlows) =
        st.cashFlows ++ dates.flatMap (fun date =>
          (txs.filter (fun t => t.date = date)).flatMap (flowDelta date)) := by
  induction dates with
  | nil => intro st; simp
  | cons date dates ih =>
      intro st
      simp only [List.foldl_cons, List.flatMap_cons, ih, processDay_cashFlows,
        List.append_assoc]

theorem reconstruct_units (panel : PricePanel) (txs : List Tx) (dates : List Nat)
    (s : String) (d : Nat) :
    (reconstruct panel txs dates).units s d = unitsClosed panel txs dates s d := by
  simp [reconstruct, foldl_processDay_units, unitsClosed, initState]

theorem reconstruct_bmUnits (panel : PricePanel) (txs : List Tx) (dates : List Nat)
    (d : Nat) :
    (reconstruct panel txs dates).bmUnits d = bmClosed panel txs dates d := by
  simp [reconstruct, foldl_processDay_bmUnits, bmClosed, initState]

theorem reconstruct_cashFlows (panel : PricePanel) (txs : List Tx) (dates : List Nat) :
    (reconstruct panel txs dates).cashFlows = flowsClosed txs dates := by
  simp [reconstruct, foldl_processDay_cashFlows, flowsClosed, initState]

/-- C2 — Forward-fill invariant: for a symbol tracked in the panel and any
two days `a ≤ b` of the calendar such that no transaction on that symbol is
dated in the interval `(a, b]` (among the walked dates), the final unit
position at `b` equals the position at `a`: a quantity change persists until
the next transaction on the symbol. -/
theorem c2_forward_fill (panel : PricePanel) (txs : List Tx) (dates : List Nat)
    (s : String) (a b : Nat)
    (_hcol : s ∈ panel.columns) (hab : a ≤ b)
    (hgap : ∀ t ∈ txs, t.symbol = s → t.date ∈ dates → ¬(a < t.date ∧ t.date ≤ b)) :
    (reconstruct panel txs dates).units s b = (reconstruct panel txs dates).units s a := by
  rw [reconstruct_units, reconstruct_units, unitsClosed, unitsClosed]
  refine congrArg List.sum (List.map_congr_left ?_)
  intro date hdate
  refine congrArg List.sum (List.map_congr_left ?_)
  intro t ht
  rw [List.mem_filter] at ht
  obtain ⟨htx, htd⟩ := ht
  have htd' : t.date = date := by simpa using htd
  by_cases hsym : s = t.symbol
  · have hno := hgap t htx hsym.symm (htd' ▸ hdate)
    rw [htd'] at hno
    rcases Nat.lt_or_ge a date with hlt | hge
    · have hnb : ¬ date ≤ b := fun hdb => hno ⟨hlt, hdb⟩
      have hna : ¬ date ≤ a := by omega
      unfold unitDelta
      simp [hna, hnb]
    · have hdb : date ≤ b := le_trans hge hab
      unfold unitDelta
      simp [hge, hdb]
  · unfold unitDelta
    simp [hsym]

/-- Witness for C2 at a concrete input: buy 5 `X` on day 0, sell 2 on
day 3; on day 2 (strictly between the two transactions) the unit position
equals the day-0 position. -/
theorem c2_witness :
    ("X" ∈ demoPanel.columns) ∧ (0 : Nat) ≤ 2 ∧
    (∀ t ∈ c2txs, t.symbol = "X" → t.date ∈ [0, 1, 2, 3] → ¬(0 < t.date ∧ t.date ≤ 2)) ∧
    (reconstruct demoPanel c2txs [0, 1, 2, 3]).units "X" 2 =
      (reconstruct demoPanel c2txs [0, 1, 2, 3]).units "X" 0 :=
  ⟨by decide, by decide, by decide,
    c2_forward_fill demoPanel c2txs [0, 1, 2, 3] "X" 0 2 (by decide) (by decide) (by decide)⟩

/-- C3 (amended) — Every recorded cash flow comes from a transaction of the
walked calendar: a buy records the outflow `-(quantity*price + charges)`, a
sell records the inflow `quantity*price + charges` (the source adds the
charges on both sides, line 112). -/
theorem c3_cash_flow_form (panel : PricePanel) (txs : List Tx) (dates : List Nat)
    (d : Nat) (a : ℚ)
    (hmem : (d, a) ∈ (reconstruct panel txs dates).cashFlows) :
    ∃ t ∈ txs, t.date = d ∧ d ∈ dates ∧
      ((t.transaction_type = "buy" ∧ a = -(t.quantity * t.price + t.charges)) ∨
       (t.transaction_type = "sell" ∧ a = t.quantity * t.price + t.charges)) := by
  rw [reconstruct_cashFlows, flowsClosed, List.mem_flatMap] at hmem
  obtain ⟨date, hdate, hmem⟩ := hmem
  rw [List.mem_flatMap] at hmem
  obtain ⟨t, ht, hmem⟩ := hmem
  rw [List.mem_filter] at ht
  obtain ⟨htx, htd⟩ := ht
  have htd' : t.date = date := by simpa using htd
  unfold flowDelta at hmem
  by_cases hbuy : t.transaction_type = "buy"
  · rw [if_pos hbuy] at hmem
    simp only [List.mem_singleton, Prod.mk.injEq] at hmem
    obtain ⟨hd, ha⟩ := hmem
    exact ⟨t, htx, by rw [htd', hd], hd ▸ hdate,
      Or.inl ⟨hbuy, by rw [ha, Tx.amount]⟩⟩
  · rw [if_neg hbuy] at hmem
    by_cases hsell : t.transaction_type = "sell"
    · rw [if_pos hsell] at hmem
      simp only [List.mem_singleton, Prod.mk.injEq] at hmem
      obtain ⟨hd, ha⟩ := hmem
      exact ⟨t, htx, by rw [htd', hd], hd ▸ hdate,
        Or.inr ⟨hsell, by rw [ha, Tx.amount]⟩⟩
    · rw [if_neg hsell] at hmem
      simp at hmem

/-- Counterexample for C3 as stated: a sell of 1 unit at price 100 with
charges 10 records the inflow `110 = quantity*price + charges`, not the
claimed proceeds `quantity*price - charges = 90`. -/
theorem c3_counterexample :
    (reconstruct c3panel c3txs [0]).cashFlows = [(0, 110)] ∧
    (110 : ℚ) ≠ 1 * 100 - 10 :=
  ⟨by with_unfolding_all decide, by norm_num⟩

/-- Witness for C3 at a concrete input: the recorded inflow `(0, 110)` of
the charges-10 sell satisfies the amended characterisation. -/
theorem c3_witness :
    ((0 : Nat), (110 : ℚ)) ∈ (reconstruct c3panel c3txs [0]).cashFlows ∧
    (∃ t ∈ c3txs, t.date = 0 ∧ (0 : Nat) ∈ [0] ∧
      ((t.transaction_type = "buy" ∧ (110 : ℚ) = -(t.quantity * t.price + t.charges)) ∨
       (t.transaction_type = "sell" ∧ (110 : ℚ) = t.quantity * t.price + t.charges))) :=
  ⟨by with_unfolding_all decide,
    c3_cash_flow_form c3panel c3txs [0] 0 110 (by with_unfolding_all decide)⟩

/-- C9 — The phantom benchmark unit series is monotonically non-decreasing
(for well-formed data: non-negative quantity/price/charges and non-negative
benchmark prices), and its value is exactly the closed-form sum over BUY
transactions of `amount / that day's benchmark price`: sells never touch it. -/
theorem c9_benchmark_monotone (panel : PricePanel) (txs : List Tx) (dates : List Nat)
    (a b : Nat)
    (hnn : ∀ t ∈ txs, 0 ≤ t.quantity ∧ 0 ≤ t.price ∧ 0 ≤ t.charges)
    (hp : ∀ d ∈ dates, 0 ≤ panel.price d nifty_col)
    (hab : a ≤ b) :
    (reconstruct panel txs dates).bmUnits a ≤ (reconstruct panel txs dates).bmUnits b ∧
    (reconstruct panel txs dates).bmUnits b = bmClosed panel txs dates b := by
  refine ⟨?_, reconstruct_bmUnits panel txs dates b⟩
  rw [reconstruct_bmUnits, reconstruct_bmUnits, bmClosed, bmClosed]
  refine List.sum_le_sum ?_
  intro date hdate
  refine List.sum_le_sum ?_
  intro t ht
  rw [List.mem_filter] at ht
  obtain ⟨htx, _⟩ := ht
  unfold bmDelta
  by_cases hbuy : t.transaction_type = "buy"
  · by_cases hda : date ≤ a
    · have hdb : date ≤ b := le_trans hda hab
      simp [hbuy, hda, hdb]
    · by_cases hdb : date ≤ b
      · simp only [hbuy, hda, hdb, true_and, and_false, if_true, if_false]
        apply div_nonneg
        · obtain ⟨hq, hpr, hc⟩ := hnn t htx
          exact add_nonneg (mul_nonneg hq hpr) hc
        · exact hp date hdate
      · simp [hbuy, hda, hdb]
  · simp [hbuy]

/-- Witness for C9 at a concrete input: with a buy on day 0 and a sell on
day 3, the phantom benchmark units on day 0 are ≤ those on day 3 and equal
the closed-form buy-only sum. -/
theorem c9_witness :
    (∀ t ∈ c2txs, 0 ≤ t.quantity ∧ 0 ≤ t.price ∧ 0 ≤ t.charges) ∧
    (∀ d ∈ [0, 1, 2, 3], 0 ≤ demoPanel.price d nifty_col) ∧
    (0 : Nat) ≤ 3 ∧
    ((reconstruct demoPanel c2txs [0, 1, 2, 3]).bmUnits 0 ≤
      (reconstruct demoPanel c2txs [0, 1, 2, 3]).bmUnits 3 ∧
     (reconstruct demoPanel c2txs [0, 1, 2, 3]).bmUnits 3 =
      bmClosed demoPanel c2txs [0, 1, 2, 3] 3) :=
  ⟨by decide, by decide, by decide,
    c9_benchmark_monotone demoPanel c2txs [0, 1, 2, 3] 0 3 (by decide) (by decide) (by decide)⟩

/-- C1 (amended) — A transaction dated on a day that is not in the walked
calendar (in particular one dated before the Price Panel's range) is
silently ignored by the reconstruction: deleting all such transactions from
the log leaves the entire reconstruction state (units, benchmark units,
invested capital, cash flows) unchanged.  No error is raised. -/
theorem c1_out_of_range_ignored (panel : PricePanel) (txs : List Tx) (dates : List Nat) :
    reconstruct panel (txs.filter (fun t => decide (t.date ∈ dates))) dates =
      reconstruct panel txs dates := by
  have key : ∀ (L : List Nat) (st : ReconState), (∀ d ∈ L, d ∈ dates) →
      L.foldl (processDay panel (txs.filter (fun t => decide (t.date ∈ dates)))) st =
        L.foldl (processDay panel txs) st := by
    intro L
    induction L with
    | nil => intro st _; rfl
    | cons date L ih =>
        intro st hmem
        have hdate : date ∈ dates := hmem date (List.mem_cons_self date L)
        have hff : (txs.filter (fun t => decide (t.date ∈ dates))).filter
            (fun t => decide (t.date = date)) = txs.filter (fun t => decide (t.date = date)) := by
          rw [List.filter_filter]
          refine List.filter_congr ?_
          intro t _
          by_cases h : t.date = date
          · have hin : t.date ∈ dates := by rw [h]; exact hdate
            simp [h, hin, hdate]
          · simp [h]
        have hpd : processDay panel (txs.filter (fun t => decide (t.date ∈ dates))) st date =
            processDay panel txs st date := by
          unfold processDay
          rw [hff]
        simp only [List.foldl_cons, hpd]
        exact ih (processDay panel txs st date) (fun d hd => hmem d (List.mem_cons_of_mem _ hd))
  exact key dates initState (fun d hd => hd)

/-- Counterexample for C1 as stated: with a panel whose calendar is
`[10, 11]` and a single buy dated day 5 (no price row exists for day 5),
the engine returns a NORMAL result — no data-integrity error is surfaced —
and the transaction's contribution is silently zeroed: no cash flow is
recorded and the invested and value series are identically 0. -/
theorem c1_counterexample :
    (process_portfolio_data c1pd c1panel none 20).isOkB = true ∧
    (reconstruct c1panel c1pd.transactions [10, 11]).cashFlows = [] ∧
    (process_portfolio_data c1pd c1panel none 20).investedSeries = [0, 0] ∧
    (process_portfolio_data c1pd c1panel none 20).valueSeries = [0, 0] := by
  with_unfolding_all decide

/-- C7 — For every cash-flow list, current value and current date, the XIRR
computation returns a value (it is a total, fuel-bounded computation): the
result is either the sentinel 0 (empty flows, or a root-finder failure,
which is absorbed rather than propagated) or a value the root-finder
converged to. -/
theorem c7_xirr_terminates_or_sentinel (txs : List (Nat × ℚ)) (cv : ℚ) (today : Nat) :
    calculate_xirr txs cv today = 0 ∨
    ∃ r, newton (fun rr => xnpv rr (txs.map Prod.snd ++ [cv]) (txs.map Prod.fst ++ [today]))
        (1 / 10) = Except.ok r ∧ calculate_xirr txs cv today = r := by
  unfold calculate_xirr
  by_cases h : txs.isEmpty
  · simp [h]
  · simp only [h, Bool.false_eq_true, if_false]
    cases hn : newton (fun rr => xnpv rr (txs.map Prod.snd ++ [cv]) (txs.map Prod.fst ++ [today]))
        (1 / 10) with
    | ok r => exact Or.inr ⟨r, rfl, rfl⟩
    | error e => exact Or.inl rfl

/-- C8 (amended) — With the system clock surfaced as the explicit `today`
input, the engine is a pure function of (ledger, panel, selection, today),
and `today` influences nothing but the `xirr` metric: erasing that one field
makes the outputs of any two invocation times identical. -/
theorem c8_clock_only_affects_xirr (pd : PortfolioData) (panel : PricePanel)
    (sel : Option (List String)) (t1 t2 : Nat) :
    eraseXirr (process_portfolio_data pd panel sel t1) =
      eraseXirr (process_portfolio_data pd panel sel t2) := by
  unfold process_portfolio_data processCore
  by_cases h1 : (applyFilter sel pd.transactions).isEmpty
  · simp [h1]
  · simp only [h1, Bool.false_eq_true, if_false]
    by_cases h2 : (panel.dates.filter
        (fun d => decide (minTxDate (applyFilter sel pd.transactions) ≤ d))).isEmpty
    · simp [h2]
    · simp only [h2, Bool.false_eq_true, if_false, eraseXirr]

/-- Counterexample for C8 as stated: the same ledger, panel and selection,
processed when `datetime.now()` reads day 100 versus day 365, yield
different Analysis Results (the xirr metric is 0 in the first case and
exactly 10% in the second): the output does not depend on the three inputs
alone. -/
theorem c8_counterexample :
    process_portfolio_data c8pd c8panel none 100 ≠
      process_portfolio_data c8pd c8panel none 365 := by
  with_unfolding_all decide

/-- C10 — Selection edge cases: a `None` selection, an empty list, or any
list containing `'ALL'` disables symbol filtering in both the engine and the
allocation aggregator (they behave exactly as the all-symbols selection);
filtering happens only for a non-empty list without `'ALL'`, and then it
keeps exactly the transactions/holdings whose symbol is in the list. -/
theorem c10_selection (pd : PortfolioData) (panel : PricePanel) (today : Nat)
    (hs : List Holding) (ps : List (String × ℚ)) (sel : Option (List String))
    (l : List String) :
    (noFilterSel sel →
      process_portfolio_data pd panel sel today = process_portfolio_data pd panel none today ∧
      get_asset_allocation hs ps sel = get_asset_allocation hs ps none) ∧
    (l ≠ [] → "ALL" ∉ l →
      applyFilter (some l) pd.transactions =
        pd.transactions.filter (fun t => decide (t.symbol ∈ l)) ∧
      get_asset_allocation hs ps (some l) =
        get_asset_allocation (hs.filter (fun h => decide (h.symbol ∈ l))) ps none) := by
  constructor
  · intro h
    have hfil : applyFilter sel pd.transactions = pd.transactions := by
      rcases h with h | h | ⟨l', hl', hall⟩
      · rw [h]; rfl
      · rw [h]; simp [applyFilter]
      · rw [hl']
        simp [applyFilter, hall]
    have hskip : ∀ s, skipHolding sel s = false := by
      intro s
      rcases h with h | h | ⟨l', hl', hall⟩
      · rw [h]; rfl
      · rw [h]; simp [skipHolding]
      · rw [hl']
        simp [skipHolding, hall]
    constructor
    · unfold process_portfolio_data
      rw [hfil]
      rfl
    · unfold get_asset_allocation
      refine List.filterMap_congr ?_
      intro h2 _
      rw [hskip]
      rfl
  · intro hne hall
    constructor
    · simp [applyFilter, hne, hall]
    · have h1 : l.isEmpty = false := by
        cases l with
        | nil => exact absurd rfl hne
        | cons a as => rfl
      have h2 : l.contains "ALL" = false := by
        simp [hall]
      unfold get_asset_allocation
      rw [List.filterMap_filter]
      refine List.filterMap_congr ?_
      intro h0 _
      by_cases hmem : h0.symbol ∈ l
      · have hk : skipHolding (some l) h0.symbol = false := by
          simp [skipHolding, h1, h2, hmem]
        simp [hk, hmem, skipHolding]
      · have hk : skipHolding (some l) h0.symbol = true := by
          simp [skipHolding, h1, h2, hall, hmem]
        simp [hk, hmem]

/-- Witness for C10 at concrete inputs: the selection `["ALL"]` behaves as
the all-symbols selection for both engine and aggregator, and the selection
`["Y"]` filters transactions and holdings to the symbols in the list. -/
theorem c10_witness :
    (process_portfolio_data c8pd c8panel (some ["ALL"]) 0 =
      process_portfolio_data c8pd c8panel none 0 ∧
     get_asset_allocation w10hs w10ps (some ["ALL"]) =
      get_asset_allocation w10hs w10ps none) ∧
    (applyFilter (some ["Y"]) c8pd.transactions =
      c8pd.transactions.filter (fun t => decide (t.symbol ∈ ["Y"])) ∧
     get_asset_allocation w10hs w10ps (some ["Y"]) =
      get_asset_allocation (w10hs.filter (fun h => decide (h.symbol ∈ ["Y"]))) w10ps none) :=
  ⟨(c10_selection c8pd c8panel 0 w10hs w10ps (some ["ALL"]) ["Y"]).1
      (Or.inr (Or.inr ⟨["ALL"], rfl, by decide⟩)),
   (c10_selection c8pd c8panel 0 w10hs w10ps (some ["ALL"]) ["Y"]).2
      (by decide) (by decide)⟩

theorem profitCell_num (v i : ℚ) (h : i ≠ 0) :
    profitCell v i = .num ((v - i) / i * 100) := by
  simp [profitCell, fdiv, fmul, fillna0, h]

theorem profitCell_nan (v i : ℚ) (hi : i = 0) (hv : v = 0) :
    profitCell v i = .num 0 := by
  subst hi hv
  simp [profitCell, fdiv, fmul, fillna0]

theorem profitCell_inf (v i : ℚ) (hi : i = 0) (hv : 0 < v) :
    profitCell v i = .inf := by
  subst hi
  have h1 : v - 0 ≠ 0 := by simpa using hv.ne'
  have h2 : (0 : ℚ) < v - 0 := by simpa using hv
  simp only [profitCell, fdiv, if_pos rfl, if_neg h1, if_pos h2, fmul]
  norm_num [fillna0]

theorem profitCell_neginf (v i : ℚ) (hi : i = 0) (hv : v < 0) :
    profitCell v i = .neginf := by
  subst hi
  have h1 : v - 0 ≠ 0 := by simpa using hv.ne
  have h2 : ¬ (0 : ℚ) < v - 0 := by simpa using not_lt.mpr hv.le
  simp only [profitCell, fdiv, if_pos rfl, if_neg h1, if_neg h2, fmul]
  norm_num [fillna0]

/-- C4 (amended) — The profit-percentage series is the pointwise map of
`((value - invested) / invested * 100).fillna(0)` over the value and
invested series; on a day with `invested ≠ 0` (including negative invested
capital) it is the plain formula — for `invested < 0` a sign-flipped
percentage, not 0; on a day with `invested = 0` it is 0 only when the value
is also 0 (the `0/0 = NaN` case that `fillna` patches), and ±infinity when
the value is non-zero. -/
theorem c4_profit_pct_characterisation (pd : PortfolioData) (panel : PricePanel)
    (sel : Option (List String)) (today k : Nat) (v i : ℚ) (p : FVal)
    (hv : (process_portfolio_data pd panel sel today).valueSeries[k]? = some v)
    (hi : (process_portfolio_data pd panel sel today).investedSeries[k]? = some i)
    (hp : (process_portfolio_data pd panel sel today).profitSeries[k]? = some p) :
    (i ≠ 0 → p = .num ((v - i) / i * 100)) ∧
    (i = 0 → v = 0 → p = .num 0) ∧
    (i = 0 → 0 < v → p = .inf) ∧
    (i = 0 → v < 0 → p = .neginf) := by
  have hpc : p = profitCell v i := by
    unfold process_portfolio_data processCore at hv hi hp
    by_cases h1 : (applyFilter sel pd.transactions).isEmpty
    · rw [if_pos h1] at hv
      simp [EngineOutput.valueSeries] at hv
    · rw [if_neg h1] at hv hi hp
      by_cases h2 : (panel.dates.filter
          (fun d => decide (minTxDate (applyFilter sel pd.transactions) ≤ d))).isEmpty
      · rw [if_pos h2] at hv
        simp [EngineOutput.valueSeries] at hv
      · rw [if_neg h2] at hv hi hp
        simp only [EngineOutput.valueSeries, EngineOutput.investedSeries,
          EngineOutput.profitSeries] at hv hi hp
        rw [List.getElem?_zipWith, hv, hi] at hp
        simpa using hp.symm
  refine ⟨fun h => ?_, fun h1 h2 => ?_, fun h1 h2 => ?_, fun h1 h2 => ?_⟩
  · rw [hpc, profitCell_num v i h]
  · rw [hpc, profitCell_nan v i h1 h2]
  · rw [hpc, profitCell_inf v i h1 h2]
  · rw [hpc, profitCell_neginf v i h1 h2]

/-- Counterexample for C4 as stated: buy 1 `X` at 100 on day 0, sell it at
150 on day 1 — invested capital on day 1 is `-50 ≤ 0`, yet the profit-% on
day 1 is `-100`, not 0 (a sign-flipped percentage: the value 0 exceeds the
invested -50 but the reported profit-% is negative). -/
theorem c4_counterexample :
    (process_portfolio_data c4pd c4panel none 5).investedSeries[1]? = some (-50 : ℚ) ∧
    ((-50 : ℚ) ≤ 0) ∧
    (process_portfolio_data c4pd c4panel none 5).profitSeries[1]? = some (.num (-100)) ∧
    FVal.num (-100) ≠ FVal.num 0 := by
  with_unfolding_all decide

/-- Witness for C4 at a concrete input: day 1 of the oversell scenario has
value 0, invested -50, and profit-% `(0 - (-50)) / (-50) * 100 = -100`. -/
theorem c4_witness :
    (process_portfolio_data c4pd c4panel none 5).valueSeries[1]? = some (0 : ℚ) ∧
    (process_portfolio_data c4pd c4panel none 5).investedSeries[1]? = some (-50 : ℚ) ∧
    (process_portfolio_data c4pd c4panel none 5).profitSeries[1]? = some (.num (-100)) ∧
    ((-50 : ℚ) ≠ 0 → FVal.num (-100) = .num ((0 - (-50)) / (-50) * 100)) :=
  ⟨by with_unfolding_all decide, by with_unfolding_all decide,
   by with_unfolding_all decide,
   (c4_profit_pct_characterisation c4pd c4panel none 5 1 0 (-50) (.num (-100))
      (by with_unfolding_all decide) (by with_unfolding_all decide)
      (by with_unfolding_all decide)).1⟩

theorem cummaxAux_getElem (l : List ℚ) :
    ∀ (acc : ℚ) (k : Nat) (v m : ℚ), l[k]? = some v → (cummaxAux acc l)[k]? = some m →
      v ≤ m := by
  induction l with
  | nil => intro acc k v m hv _; simp at hv
  | cons x xs ih =>
      intro acc k v m hv hm
      cases k with
      | zero =>
          simp only [cummaxAux, List.getElem?_cons_zero, Option.some.injEq] at hv hm
          rw [← hv, ← hm]
          exact le_max_right acc x
      | succ k =>
          simp only [cummaxAux, List.getElem?_cons_succ] at hv hm
          exact ih (max acc x) k v m hv hm

theorem cummaxAux_mem (l : List ℚ) :
    ∀ (acc m : ℚ), m ∈ cummaxAux acc l → m = acc ∨ m ∈ l := by
  induction l with
  | nil => intro acc m hm; simp [cummaxAux] at hm
  | cons x xs ih =>
      intro acc m hm
      simp only [cummaxAux, List.mem_cons] at hm
      rcases hm with hm | hm
      · rcases max_choice acc x with h | h
        · exact Or.inl (by rw [hm, h])
        · exact Or.inr (by rw [hm, h]; exact List.mem_cons_self x xs)
      · rcases ih (max acc x) m hm with h | h
        · rcases max_choice acc x with h2 | h2
          · exact Or.inl (by rw [h, h2])
          · exact Or.inr (by rw [h, h2]; exact List.mem_cons_self x xs)
        · exact Or.inr (List.mem_cons_of_mem x h)

theorem cummax_le (l : List ℚ) (k : Nat) (v m : ℚ)
    (hv : l[k]? = some v) (hm : (cummax l)[k]? = some m) : v ≤ m := by
  cases l with
  | nil => simp at hv
  | cons x xs =>
      cases k with
      | zero =>
          simp only [cummax, List.getElem?_cons_zero, Option.some.injEq] at hv hm
          rw [← hv, ← hm]
      | succ k =>
          simp only [cummax, List.getElem?_cons_succ] at hv hm
          exact cummaxAux_getElem xs x k v m hv hm

theorem cummax_mem (l : List ℚ) (m : ℚ) (hm : m ∈ cummax l) : m ∈ l := by
  cases l with
  | nil => simp [cummax] at hm
  | cons x xs =>
      simp only [cummax, List.mem_cons] at hm
      rcases hm with hm | hm
      · rw [hm]; exact List.mem_cons_self x xs
      · rcases cummaxAux_mem xs x m hm with h | h
        · rw [h]; exact List.mem_cons_self x xs
        · exact List.mem_cons_of_mem x h

theorem fmin2_num (a q : ℚ) : fmin2 (FVal.num a) (FVal.num q) = FVal.num (min a q) := by
  unfold fmin2 fleB
  by_cases h : q ≤ a
  · rw [if_pos (by simpa using h), min_eq_right h]
  · rw [if_neg (by simpa using h), min_eq_left (le_of_not_le h)]

theorem foldl_fmin2_map_num (qs : List ℚ) :
    ∀ (a : ℚ), (qs.map FVal.num).foldl fmin2 (FVal.num a) = FVal.num (qs.foldl min a) := by
  induction qs with
  | nil => intro a; rfl
  | cons q qs ih =>
      intro a
      simp only [List.map_cons, List.foldl_cons, fmin2_num]
      exact ih (min a q)

theorem fvalMin_map_num (q : ℚ) (qs : List ℚ) :
    fvalMin ((q :: qs).map FVal.num) = FVal.num (qs.foldl min q) := by
  unfold fvalMin
  have hfil : ((q :: qs).map FVal.num).filter (fun x => !(x == FVal.nan)) =
      (q :: qs).map FVal.num := by
    rw [List.filter_eq_self]
    intro a ha
    obtain ⟨b, _, rfl⟩ := List.mem_map.mp ha
    rfl
  rw [hfil]
  simp only [List.map_cons]
  exact foldl_fmin2_map_num qs q

theorem foldl_min_le_init (qs : List ℚ) : ∀ (a : ℚ), qs.foldl min a ≤ a := by
  induction qs with
  | nil => intro a; exact le_refl a
  | cons q qs ih =>
      intro a
      simp only [List.foldl_cons]
      exact le_trans (ih (min a q)) (min_le_left a q)

theorem foldl_min_le_mem (qs : List ℚ) : ∀ (a x : ℚ), x ∈ qs → qs.foldl min a ≤ x := by
  induction qs with
  | nil => intro a x hx; simp at hx
  | cons q qs ih =>
      intro a x hx
      simp only [List.foldl_cons]
      rcases List.mem_cons.mp hx with h | h
      · exact le_trans (foldl_min_le_init qs (min a q)) (by rw [h]; exact min_le_right a q)
      · exact ih (min a q) x h

theorem foldl_min_mem (qs : List ℚ) : ∀ (a : ℚ), qs.foldl min a ∈ a :: qs := by
  induction qs with
  | nil => intro a; exact List.mem_cons_self a []
  | cons q qs ih =>
      intro a
      simp only [List.foldl_cons]
      rcases List.mem_cons.mp (ih (min a q)) with h | h
      · rcases min_choice a q with h2 | h2
        · rw [h, h2]
          exact List.mem_cons_self a (q :: qs)
        · rw [h, h2]
          exact List.mem_cons_of_mem a (List.mem_cons_self q qs)
      · exact List.mem_cons_of_mem a (List.mem_cons_of_mem q h)

theorem zipWith_fdiv_pos (l1 : List ℚ) :
    ∀ (l2 : List ℚ), (∀ m ∈ l2, m ≠ 0) →
      List.zipWith (fun v m => fdiv (.num (v - m)) (.num m)) l1 l2 =
        (List.zipWith (fun v m => (v - m) / m) l1 l2).map FVal.num := by
  induction l1 with
  | nil => intro l2 _; simp
  | cons v l1 ih =>
      intro l2 h
      cases l2 with
      | nil => simp
      | cons m l2 =>
          have hm : m ≠ 0 := h m (List.mem_cons_self m l2)
          simp only [List.zipWith_cons_cons, List.map_cons]
          rw [ih l2 (fun x hx => h x (List.mem_cons_of_mem m hx))]
          simp [fdiv, hm]

/-- C5 (amended) — For every POSITIVE-valued series: each drawdown cell is a
finite value `≤ 0` that is 0 exactly when the series value equals the
running maximum, and the reported max drawdown is the minimum (most
negative) element of the drawdown series.  (The unamended claim fails for
series with non-positive values, which the engine can produce by
overselling — see the counterexample.) -/
theorem c5_drawdown_characterisation (series : List ℚ)
    (hpos : ∀ x ∈ series, 0 < x) :
    (∀ (k : Nat) (v m : ℚ) (p : FVal),
      series[k]? = some v → (cummax series)[k]? = some m →
      (calculate_max_drawdown series).1[k]? = some p →
      ∃ q, p = FVal.num q ∧ q ≤ 0 ∧ (q = 0 ↔ v = m)) ∧
    (series ≠ [] →
      ∃ qmin, (calculate_max_drawdown series).2 = FVal.num qmin ∧
        FVal.num qmin ∈ (calculate_max_drawdown series).1 ∧
        ∀ p ∈ (calculate_max_drawdown series).1, ∃ q, p = FVal.num q ∧ qmin ≤ q) := by
  constructor
  · intro k v m p hv hm hp
    have hmmem : m ∈ series := cummax_mem series m (List.getElem?_mem hm)
    have hm0 : 0 < m := hpos m hmmem
    have hvm : v ≤ m := cummax_le series k v m hv hm
    have hne : series.isEmpty = false := by
      cases series with
      | nil => simp at hv
      | cons _ _ => rfl
    simp only [calculate_max_drawdown, hne, Bool.false_eq_true, if_false] at hp
    rw [List.getElem?_map, List.getElem?_zipWith, hv, hm] at hp
    simp only [Option.map_some'] at hp
    rw [Option.some.injEq] at hp
    refine ⟨(v - m) / m * 100, ?_, ?_, ?_⟩
    · rw [← hp]
      simp [fdiv, hm0.ne', fmul]
    · exact mul_nonpos_iff.mpr
        (Or.inr ⟨div_nonpos_iff.mpr (Or.inr ⟨sub_nonpos.mpr hvm, hm0.le⟩), by norm_num⟩)
    · constructor
      · intro hq
        rcases mul_eq_zero.mp hq with h | h
        · rcases div_eq_zero_iff.mp h with h2 | h2
          · exact sub_eq_zero.mp h2
          · exact absurd h2 hm0.ne'
        · norm_num at h
      · intro h
        rw [h]
        simp
  · intro hne
    cases series with
    | nil => exact absurd rfl hne
    | cons x xs =>
      have hne0 : ∀ m ∈ cummax (x :: xs), m ≠ 0 :=
        fun m hm => (hpos m (cummax_mem _ m hm)).ne'
      have hzip := zipWith_fdiv_pos (x :: xs) (cummax (x :: xs)) hne0
      have hq : List.zipWith (fun v m => (v - m) / m) (x :: xs) (cummax (x :: xs)) =
          ((x - x) / x) :: List.zipWith (fun v m => (v - m) / m) xs (cummaxAux x xs) := by
        simp [cummax]
      refine ⟨(List.zipWith (fun v m => (v - m) / m) xs (cummaxAux x xs)).foldl min
          ((x - x) / x) * 100, ?_, ?_, ?_⟩
      · simp only [calculate_max_drawdown, List.isEmpty_cons, Bool.false_eq_true, if_false]
        rw [hzip, hq, fvalMin_map_num]
        rfl
      · simp only [calculate_max_drawdown, List.isEmpty_cons, Bool.false_eq_true, if_false]
        rw [hzip, hq]
        have hmem := foldl_min_mem
          (List.zipWith (fun v m => (v - m) / m) xs (cummaxAux x xs)) ((x - x) / x)
        have h1 := List.mem_map_of_mem FVal.num hmem
        have h2 := List.mem_map_of_mem (fun z => fmul z (FVal.num 100)) h1
        simpa [fmul] using h2
      · intro p hp
        simp only [calculate_max_drawdown, List.isEmpty_cons, Bool.false_eq_true,
          if_false] at hp
        rw [hzip, hq] at hp
        rw [List.mem_map] at hp
        obtain ⟨y, hy, rfl⟩ := hp
        rw [List.mem_map] at hy
        obtain ⟨q, hq2, rfl⟩ := hy
        refine ⟨q * 100, rfl, ?_⟩
        have hle : (List.zipWith (fun v m => (v - m) / m) xs (cummaxAux x xs)).foldl min
            ((x - x) / x) ≤ q := by
          rcases List.mem_cons.mp hq2 with h | h
          · rw [h]
            exact foldl_min_le_init _ _
          · exact foldl_min_le_mem _ _ q h
        exact mul_le_mul_of_nonneg_right hle (by norm_num)

/-- Counterexample for C5 as stated: on the series `[-10, -20]` (negative
values are reachable: overselling makes unit positions, hence valuations,
negative) the drawdown series is `[0, +100]` — the day-1 drawdown is
`(+100) > 0`, violating `drawdown[t] ≤ 0`. -/
theorem c5_counterexample :
    (calculate_max_drawdown [-10, -20]).1 = [FVal.num 0, FVal.num 100] ∧
    ¬ ((100 : ℚ) ≤ 0) := by
  with_unfolding_all decide

/-- Witness for C5 at a concrete input: on the positive series
`[100, 50, 150]`, the day-1 drawdown is `-50 ≤ 0` (and 0 iff the value
equalled the running maximum, i.e. iff `50 = 100`), and the reported max
drawdown is the minimum element of the drawdown series. -/
theorem c5_witness :
    (∀ x ∈ [(100 : ℚ), 50, 150], 0 < x) ∧
    (∃ q, FVal.num (-50) = FVal.num q ∧ q ≤ 0 ∧ (q = 0 ↔ (50 : ℚ) = 100)) ∧
    (∃ qmin, (calculate_max_drawdown [(100 : ℚ), 50, 150]).2 = FVal.num qmin ∧
      FVal.num qmin ∈ (calculate_max_drawdown [(100 : ℚ), 50, 150]).1 ∧
      ∀ p ∈ (calculate_max_drawdown [(100 : ℚ), 50, 150]).1,
        ∃ q, p = FVal.num q ∧ qmin ≤ q) :=
  ⟨by norm_num,
   (c5_drawdown_characterisation [100, 50, 150] (by norm_num)).1 1 50 100 (FVal.num (-50))
     (by with_unfolding_all decide) (by with_unfolding_all decide)
     (by with_unfolding_all decide),
   (c5_drawdown_characterisation [100, 50, 150] (by norm_num)).2
     (by with_unfolding_all decide)⟩

theorem cov_singleton (x y : FVal) : covDDof1 [x] [y] = FVal.nan := by
  cases x <;> cases y <;>
    simp [covDDof1, fsum, fadd, fdiv, fsub, fneg, fmul]

/-- C6 (amended) — Beta over the aligned non-null intersection: 0 when the
portfolio return series has fewer than 2 points, 0 when the aligned
intersection is empty, `cov/var` over the intersection otherwise — but when
the intersection has EXACTLY ONE point (and the portfolio series has ≥ 2),
the `ddof = 1` covariance degenerates to `0/0` and the returned beta is
NaN, not the claimed 0. -/
theorem c6_beta_characterisation (dr br : List (Nat × FVal)) :
    (dr.length < 2 → calculate_risk_metrics dr br = .num 0) ∧
    (2 ≤ dr.length → alignJoin dr br = [] → calculate_risk_metrics dr br = .num 0) ∧
    (∀ x y, 2 ≤ dr.length → alignJoin dr br = [(x, y)] →
      calculate_risk_metrics dr br = .nan) ∧
    (2 ≤ dr.length → alignJoin dr br ≠ [] →
      calculate_risk_metrics dr br =
        fdiv (covDDof1 ((alignJoin dr br).map Prod.fst) ((alignJoin dr br).map Prod.snd))
          (covDDof1 ((alignJoin dr br).map Prod.snd) ((alignJoin dr br).map Prod.snd))) := by
  refine ⟨?_, ?_, ?_, ?_⟩
  · intro h
    simp [calculate_risk_metrics, h]
  · intro h2 hj
    simp only [calculate_risk_metrics]
    rw [if_neg (by omega), if_pos hj]
  · intro x y h2 hj
    simp only [calculate_risk_metrics]
    rw [if_neg (by omega), if_neg (by simp [hj])]
    rw [hj]
    simp [cov_singleton, fdiv]
  · intro h2 hj
    simp only [calculate_risk_metrics]
    rw [if_neg (by omega), if_neg hj]

/-- Counterexample for C6 as stated: a 2-point portfolio return series
aligned with a 1-point benchmark series has a single-point intersection
(fewer than 2 points), yet the returned beta is NaN, not 0. -/
theorem c6_counterexample :
    calculate_risk_metrics [(0, FVal.num 1), (1, FVal.num 2)] [(0, FVal.num 1)] = FVal.nan ∧
    FVal.nan ≠ FVal.num 0 := by
  with_unfolding_all decide

/-- Witness for C6 at concrete inputs: an empty portfolio series yields
beta 0, and a 2-point series whose aligned intersection with the benchmark
is the single pair `(1, 5)` yields beta NaN. -/
theorem c6_witness :
    (([] : List (Nat × FVal)).length < 2 ∧
      calculate_risk_metrics [] [] = FVal.num 0) ∧
    (2 ≤ ([(0, FVal.num 1), (1, FVal.num 2)] : List (Nat × FVal)).length ∧
      alignJoin [(0, FVal.num 1), (1, FVal.num 2)] [(0, FVal.num 5)] =
        [(FVal.num 1, FVal.num 5)] ∧
      calculate_risk_metrics [(0, FVal.num 1), (1, FVal.num 2)] [(0, FVal.num 5)] =
        FVal.nan) :=
  ⟨⟨by decide, (c6_beta_characterisation [] []).1 (by decide)⟩,
   ⟨by decide, by with_unfolding_all decide,
    (c6_beta_characterisation [(0, FVal.num 1), (1, FVal.num 2)] [(0, FVal.num 5)]).2.2.1
      (FVal.num 1) (FVal.num 5) (by decide) (by with_unfolding_all decide)⟩⟩
